import Mathlib

/-!
Verification of the monthly transaction aggregation and report assembly
procedure of the personal-finance reporting scripts.

The central embedding follows the function `generate_excel_report` in
`src/g_latest_r.py`: a single pass over transaction rows that buckets them
by calendar month (key produced from `created_at` in the shape YYYYMM),
accumulates income, clean-expense and outlier-expense totals per month,
and computes per-category subtotals over non-outlier expenses.

Timestamps are parsed with `datetime.strptime(value, "%Y-%m-%d %H:%M:%S")`.
The model below reproduces the documented CPython semantics of that call:
for the directives %m, %d, %H, %M and %S the leading zero is optional
(a one-digit field is accepted), a literal space in the format matches a
run of whitespace, %S additionally matches 60 and 61 before the datetime
constructor rejects seconds above 59, and the day of month is validated
against the length of the month including leap years. The %Y directive in
the rendered key is modelled as a four-digit zero-padded year.
-/

set_option maxHeartbeats 1000000

namespace FinanceReports

/-- A row of the `transactions` table, in the column order
id, type, category, quantity, amount, description, created_at, is_outlier
used by `g_latest_r.py`. -/
structure Row where
  id : Int
  rtype : String
  category : String
  quantity : Option Int
  amount : Int
  descr : String
  created_at : String
  is_outlier : Option Int
deriving DecidableEq

/-- The per-month accumulator dictionary with keys income, expense_clean,
expense_outlier from `generate_excel_report`. -/
structure Totals where
  income : Int
  expense_clean : Int
  expense_outlier : Int
deriving DecidableEq

/-- Numeric value of a digit character. -/
def digitVal (c : Char) : Nat := c.toNat - 48

/-- Maximal run of decimal digit characters at the head of the list,
together with the remainder. -/
def readDigits : List Char → List Char × List Char
  | [] => ([], [])
  | c :: cs =>
    if c.isDigit then
      let p := readDigits cs
      (c :: p.1, p.2)
    else ([], c :: cs)

/-- Value of a most-significant-first digit string. -/
def digitsVal (ds : List Char) : Nat := ds.foldl (fun a c => a * 10 + digitVal c) 0

/-- One numeric field of the strptime pattern: a two-digit run is accepted
when its value lies in [min2, max2], a one-digit run when its value lies in
[min1, 9]; any other run length fails. This reproduces the regular
expressions CPython uses for %m, %d, %H, %M and %S in context, where the
field is followed by a non-digit delimiter. -/
def readNumField (min2 max2 min1 : Nat) (cs : List Char) : Option (Nat × List Char) :=
  let p := readDigits cs
  let v := digitsVal p.1
  if p.1.length = 2 then
    if min2 ≤ v ∧ v ≤ max2 then some (v, p.2) else none
  else if p.1.length = 1 then
    if min1 ≤ v ∧ v ≤ 9 then some (v, p.2) else none
  else none

/-- Consume one expected literal character. -/
def expectChar (c : Char) : List Char → Option (List Char)
  | [] => none
  | x :: xs => if x = c then some xs else none

/-- Whitespace as matched by the regular expression class backslash-s on
ASCII input. -/
def isPySpace (c : Char) : Bool :=
  c = ' ' || c = '\t' || c = '\n' || c = '\r' || c = '\x0b' || c = '\x0c'

/-- Consume one or more whitespace characters (a literal space in a
strptime format matches a whitespace run). -/
def skipSpaces1 : List Char → Option (List Char)
  | [] => none
  | x :: xs => if isPySpace x then some (xs.dropWhile isPySpace) else none

/-- Gregorian leap-year rule, as used by the datetime constructor. -/
def isLeapYear (y : Nat) : Bool := y % 4 = 0 && (y % 100 ≠ 0 || y % 400 = 0)

/-- Number of days of a month, as validated by the datetime constructor. -/
def daysInMonth (y m : Nat) : Nat :=
  if m = 2 then (if isLeapYear y then 29 else 28)
  else if m = 4 ∨ m = 6 ∨ m = 9 ∨ m = 11 then 30
  else 31

/-- The result of a successful strptime call. -/
structure Timestamp where
  year : Nat
  month : Nat
  day : Nat
  hour : Nat
  minute : Nat
  second : Nat
deriving DecidableEq

/-- Model of `datetime.strptime(s, "%Y-%m-%d %H:%M:%S")`: the pattern match
followed by the range checks of the datetime constructor (year at least 1,
day at most the length of the month, second at most 59). Returns none
exactly when the Python call raises ValueError. -/
def parseTimestamp (s : String) : Option Timestamp :=
  if (readDigits s.data).1.length = 4 then
    (expectChar '-' (readDigits s.data).2).bind fun r2 =>
    (readNumField 1 12 1 r2).bind fun pm =>
    (expectChar '-' pm.2).bind fun r4 =>
    (readNumField 1 31 1 r4).bind fun pd =>
    (skipSpaces1 pd.2).bind fun r6 =>
    (readNumField 0 23 0 r6).bind fun ph =>
    (expectChar ':' ph.2).bind fun r8 =>
    (readNumField 0 59 0 r8).bind fun pmi =>
    (expectChar ':' pmi.2).bind fun r10 =>
    (readNumField 0 61 0 r10).bind fun ps =>
    if ps.2 = [] ∧ 1 ≤ digitsVal (readDigits s.data).1 ∧
        pd.1 ≤ daysInMonth (digitsVal (readDigits s.data).1) pm.1 ∧ ps.1 ≤ 59 then
      some ⟨digitsVal (readDigits s.data).1, pm.1, pd.1, ph.1, pmi.1, ps.1⟩
    else none
  else none

/-- Decimal digit character for a value below ten. -/
def digitChar (d : Nat) : Char := Char.ofNat (48 + d)

/-- Fixed-width zero-padded decimal rendering, most significant digit
first. -/
def padNat : Nat → Nat → List Char
  | 0, _ => []
  | w + 1, n => digitChar (n / 10 ^ w % 10) :: padNat w (n % 10 ^ w)

/-- The YYYYMM month key string for a year and month value, as rendered by
`strftime("%Y%m")`. -/
def monthKeyYM (y m : Nat) : String := String.mk (padNat 4 y ++ padNat 2 m)

/-- Month key of a parsed timestamp. -/
def monthKey (t : Timestamp) : String := monthKeyYM t.year t.month

/-- Month key of a row: `strftime("%Y%m")` applied to the parse of its
created_at column; none when the parse raises. -/
def rowMonth (r : Row) : Option String := (parseTimestamp r.created_at).map monthKey

/-- Membership test of a Python dictionary modelled as an insertion-ordered
association list. -/
def dictMem (d : List (String × α)) (k : String) : Bool := d.any fun p => p.1 == k

/-- Lookup in an insertion-ordered association list. -/
def dictFind (d : List (String × α)) (k : String) : Option α :=
  (d.find? fun p => p.1 == k).map Prod.snd

/-- In-place update of the first entry holding a key, preserving entry
order, as a Python dictionary assignment to an existing key does. -/
def dictUpdate : List (String × α) → String → (α → α) → List (String × α)
  | [], _, _ => []
  | p :: d, k, f => if p.1 == k then (p.1, f p.2) :: d else p :: dictUpdate d k f

/-- The two dictionaries built by the aggregation loop of
`generate_excel_report`: month_data maps a month key to its member rows in
input order, monthly_income_expense maps it to the accumulated totals. -/
structure AggState where
  month_data : List (String × List Row)
  monthly_income_expense : List (String × Totals)
deriving DecidableEq

def initState : AggState := ⟨[], []⟩

/-- The value the loop compares against 1: row index 7 when it is not
None, else 0. -/
def outlierVal (r : Row) : Int := r.is_outlier.getD 0

def addIncome (a : Int) (t : Totals) : Totals := { t with income := t.income + a }

def addClean (a : Int) (t : Totals) : Totals := { t with expense_clean := t.expense_clean + a }

def addOutlier (a : Int) (t : Totals) : Totals := { t with expense_outlier := t.expense_outlier + a }

/-- One iteration of the aggregation loop: parse created_at (none models
the ValueError propagating), create the month bucket on first sight,
append the row to its bucket, and route the amount by the type column and
the outlier flag. -/
def stepRow (st : AggState) (r : Row) : Option AggState :=
  match rowMonth r with
  | none => none
  | some m =>
    let st1 :=
      if dictMem st.month_data m then st
      else ⟨st.month_data ++ [(m, [])], st.monthly_income_expense ++ [(m, ⟨0, 0, 0⟩)]⟩
    let st2 : AggState := ⟨dictUpdate st1.month_data m (fun l => l ++ [r]), st1.monthly_income_expense⟩
    some (if r.rtype == "expense" then
            if outlierVal r == 1 then
              ⟨st2.month_data, dictUpdate st2.monthly_income_expense m (addOutlier r.amount)⟩
            else
              ⟨st2.month_data, dictUpdate st2.monthly_income_expense m (addClean r.amount)⟩
          else
            ⟨st2.month_data, dictUpdate st2.monthly_income_expense m (addIncome r.amount)⟩)

/-- The aggregation loop over the remaining rows. -/
def aggLoop : AggState → List Row → Option AggState
  | st, [] => some st
  | st, r :: rs =>
    match stepRow st r with
    | none => none
    | some st2 => aggLoop st2 rs

/-- The data aggregation pass of `generate_excel_report`; none models a
propagating ValueError from strptime. -/
def aggregate (rows : List Row) : Option AggState := aggLoop initState rows

/-- The filter of the category-breakdown loop: type equals expense and
row index 7 is None or 0. -/
def catFilter (r : Row) : Bool :=
  r.rtype == "expense" && (r.is_outlier == none || r.is_outlier == some 0)

/-- Model of the assignment d[k] = d.get(k, 0) + v on a Python
dictionary. -/
def dictAdd (d : List (String × Int)) (k : String) (v : Int) : List (String × Int) :=
  if dictMem d k then dictUpdate d k (· + v) else d ++ [(k, v)]

def ebcAux (acc : List (String × Int)) : List Row → List (String × Int)
  | [] => acc
  | r :: rs => ebcAux (if catFilter r then dictAdd acc r.category r.amount else acc) rs

/-- The expense_by_category dictionary built per month sheet over the
member rows of the month. -/
def expense_by_category (rows : List Row) : List (String × Int) := ebcAux [] rows

/-- The comparison used by the Python sorted() call on the items of a
dictionary with distinct string keys. -/
def keyOrder (p q : String × α) : Prop := p.1 ≤ q.1

instance : DecidableRel (@keyOrder α) := fun p q => String.decidableLE p.1 q.1

/-- Items of a dictionary in ascending key order, as iterated by
sorted(d.items()). -/
def sortByKey (d : List (String × α)) : List (String × α) :=
  List.insertionSort keyOrder d

instance : IsTotal (String × α) keyOrder := ⟨fun a b => le_total a.1 b.1⟩

instance : IsTrans (String × α) keyOrder := ⟨fun _ _ _ h1 h2 => le_trans h1 h2⟩

/-- The summary sheet rows: one entry per month in sorted key order,
carrying the month key and its totals. -/
def summaryRows (st : AggState) : List (String × Totals) := sortByKey st.monthly_income_expense

/-- The per-month detail sheets: one entry per month in sorted key order,
carrying the month key and its member rows. -/
def detailSheets (st : AggState) : List (String × List Row) := sortByKey st.month_data

section SpecSide

/-- Sum of the amount column over a list of rows. -/
def sumAmounts (l : List Row) : Int := (l.map Row.amount).sum

def isExpense (r : Row) : Bool := r.rtype == "expense"

def inMonth (m : String) (r : Row) : Bool := rowMonth r == some m

def incomeOf (rows : List Row) (m : String) : Int :=
  sumAmounts (rows.filter fun r => inMonth m r && !isExpense r)

def cleanOf (rows : List Row) (m : String) : Int :=
  sumAmounts (rows.filter fun r => inMonth m r && (isExpense r && !(outlierVal r == 1)))

def outlierOf (rows : List Row) (m : String) : Int :=
  sumAmounts (rows.filter fun r => inMonth m r && (isExpense r && outlierVal r == 1))

def expenseOf (rows : List Row) (m : String) : Int :=
  sumAmounts (rows.filter fun r => inMonth m r && isExpense r)

def specTotals (rows : List Row) (m : String) : Totals :=
  ⟨incomeOf rows m, cleanOf rows m, outlierOf rows m⟩

def addT (a b : Totals) : Totals :=
  ⟨a.income + b.income, a.expense_clean + b.expense_clean, a.expense_outlier + b.expense_outlier⟩

/-- Totals recorded for a month key, defaulting to zero for an absent
key. -/
def bucketTotals (st : AggState) (m : String) : Totals :=
  (dictFind st.monthly_income_expense m).getD ⟨0, 0, 0⟩

/-- Member rows recorded for a month key, defaulting to the empty list for
an absent key. -/
def bucketRows (st : AggState) (m : String) : List Row :=
  (dictFind st.month_data m).getD []

def monthKeys (st : AggState) : List String := st.monthly_income_expense.map Prod.fst

def dataKeys (st : AggState) : List String := st.month_data.map Prod.fst

/-- Invariant of the aggregation loop: the two dictionaries always hold
the same keys, in the same insertion order, without duplicates. -/
def Inv (st : AggState) : Prop := dataKeys st = monthKeys st ∧ (dataKeys st).Nodup

def catPred (c : String) (r : Row) : Bool := catFilter r && r.category == c

def catSum (l : List Row) (c : String) : Int := sumAmounts (l.filter (catPred c))

/-- Value of one category in the per-month breakdown dictionary,
defaulting to zero for an absent category. -/
def catValue (l : List Row) (c : String) : Int :=
  (dictFind (expense_by_category l) c).getD 0

end SpecSide

section RunModels

/-- Observable outcome of one script run: whether the no-data diagnostic
was printed, whether an artifact file was rendered to disk, whether an
upload was attempted, whether the run ended in a raised error, and whether
the artifact file is still on disk at the end. -/
structure RunTrace where
  printedNoData : Bool
  artifactWritten : Bool
  deliveryAttempted : Bool
  raisedError : Bool
  fileRemaining : Bool
deriving DecidableEq

/-- The condition under which requests raise_for_status raises: a client
or server error status. -/
def httpFailure (status : Nat) : Bool := 400 ≤ status && status < 600

/-- Control-flow model of main() in `g_latest_r.py`: generate_excel_report
always saves the workbook (there is no empty-input check), then
send_report_to_telegram posts it and calls raise_for_status, and only
after that os.remove deletes the file. A strptime failure inside the
aggregation propagates before the save. -/
def mainRunLatest (data : List Row) (status : Nat) : RunTrace :=
  match aggregate data with
  | none => ⟨false, false, false, true, false⟩
  | some _ =>
    if httpFailure status then ⟨false, true, true, true, true⟩
    else ⟨false, true, true, false, false⟩

/-- Control-flow model of the top level of `g_w_e_piechart.py`: on an
empty query result it prints the diagnostic and exits; otherwise it
renders the image, posts it, reports the status on standard output, and
never deletes the image file. -/
def runPiechart (data : List (String × Int)) : RunTrace :=
  if data.isEmpty then ⟨true, false, false, false, false⟩
  else ⟨false, true, true, false, true⟩

/-- Control-flow model of the top level of `g_stack_a_chart.py`: exits
with a diagnostic only when both month queries are empty; otherwise
renders, posts, and keeps the image file. -/
def runStackChart (thisRows lastRows : List (Nat × String × Int)) : RunTrace :=
  if thisRows.isEmpty && lastRows.isEmpty then ⟨true, false, false, false, false⟩
  else ⟨false, true, true, false, false⟩

/-- Control-flow model of the top level of `g_weekly_e_r.py`: no
empty-input check at all; the zero-filled chart is always rendered and
posted, and the file is always deleted afterwards. -/
def runWeekly (_data : List (String × Int)) : RunTrace := ⟨false, true, true, false, false⟩

end RunModels

/-- Convenience constructor in the column order of the table, with an
empty quantity and description. -/
def mkRow (i : Int) (ty cat : String) (amt : Int) (ts : String) (outl : Option Int) : Row :=
  ⟨i, ty, cat, none, amt, "", ts, outl⟩

/-- The month keys a list of rows introduces, in order of first
occurrence, relative to a list of keys already seen. Rows whose timestamp
does not parse are skipped here; the lemmas below use this function only
on runs where every row parses. -/
def newMonths (seen : List String) : List Row → List String
  | [] => []
  | r :: rs =>
    match rowMonth r with
    | none => newMonths seen rs
    | some m => if m ∈ seen then newMonths seen rs else m :: newMonths (m :: seen) rs

/-- Chronological rank of a YYYYMM key: one hundred times the year plus
the month. -/
def keyRank (k : String) : Nat :=
  100 * digitsVal (k.data.take 4) + digitsVal (k.data.drop 4)

/-- The literal shape YYYY-MM-DD HH:MM:SS named by the specification:
four digits, dash, two digits, dash, two digits, one space, two digits,
colon, two digits, colon, two digits. Stated from the words of the
specification, to be compared with the behavior of `parseTimestamp`. -/
def matchesDeclaredFormat (s : String) : Bool :=
  match s.data with
  | [a, b, c, d, e, f, g, h, i, j, k, l, m, n, o, p, q, u, v] =>
    a.isDigit && b.isDigit && c.isDigit && d.isDigit && e = '-' &&
    f.isDigit && g.isDigit && h = '-' && i.isDigit && j.isDigit &&
    k = ' ' && l.isDigit && m.isDigit && n = ':' && o.isDigit && p.isDigit &&
    q = ':' && u.isDigit && v.isDigit
  | _ => false

/-! ### Concrete rows and states used in scenario theorems and witnesses -/

/-- The three rows of the specification scenario. -/
def c1rows : List Row :=
  [mkRow 1 "income" "salary" 5000 "2024-01-05 10:00:00" (some 0),
   mkRow 2 "expense" "food" 1200 "2024-01-10 12:00:00" (some 0),
   mkRow 3 "expense" "food" 50000 "2024-01-15 09:00:00" (some 1)]

/-- The aggregation state the scenario rows produce. -/
def c1state : AggState :=
  ⟨[("202401", c1rows)], [("202401", ⟨5000, 1200, 50000⟩)]⟩

/-- An expense row whose outlier flag is 2: neither 0, 1 nor absent. -/
def c3row : Row := mkRow 1 "expense" "food" 100 "2024-01-05 10:00:00" (some 2)

/-- The aggregation state the flag-2 row produces: its amount lands in the
clean total but in no category subtotal. -/
def c3state : AggState := ⟨[("202401", [c3row])], [("202401", ⟨0, 100, 0⟩)]⟩

/-- A row whose created_at has an unpadded month field: it does not have
the literal YYYY-MM-DD HH:MM:SS shape, yet strptime accepts it. -/
def c6row : Row := mkRow 1 "expense" "food" 7 "2024-1-05 10:00:00" (some 0)

/-- A row whose created_at names month 13 and is rejected by strptime. -/
def c6badRow : Row := mkRow 1 "expense" "food" 7 "2024-13-05 10:00:00" (some 0)

/-- Two rows in two different months, used for order witnesses. -/
def cFebRow : Row := mkRow 1 "income" "x" 10 "2024-02-01 00:00:00" none

def cJanRow : Row := mkRow 2 "expense" "y" 20 "2024-01-01 00:00:00" (some 0)

/-- State for input order February row first. -/
def cFebJanState : AggState :=
  ⟨[("202402", [cFebRow]), ("202401", [cJanRow])],
   [("202402", ⟨10, 0, 0⟩), ("202401", ⟨0, 20, 0⟩)]⟩

/-- State for input order January row first. -/
def cJanFebState : AggState :=
  ⟨[("202401", [cJanRow]), ("202402", [cFebRow])],
   [("202401", ⟨0, 20, 0⟩), ("202402", ⟨10, 0, 0⟩)]⟩

/-- A row whose type is neither income nor expense. -/
def c9row : Row := mkRow 1 "transfer" "misc" 500 "2024-03-01 08:00:00" none

/-- The aggregation state the transfer row produces. -/
def c9state : AggState := ⟨[("202403", [c9row])], [("202403", ⟨500, 0, 0⟩)]⟩

/-! ### Dictionary lemmas -/

lemma dictFind_nil {α : Type} (k : String) : dictFind ([] : List (String × α)) k = none := rfl

lemma dictFind_cons {α : Type} (p : String × α) (d : List (String × α)) (k : String) :
    dictFind (p :: d) k = if p.1 = k then some p.2 else dictFind d k := by
  by_cases h : p.1 = k
  · have hb : (p.1 == k) = true := by simp [h]
    simp [dictFind, List.find?, hb, h]
  · have hb : (p.1 == k) = false := by simp [h]
    simp [dictFind, List.find?, hb, h]

lemma dictMem_cons {α : Type} (p : String × α) (d : List (String × α)) (k : String) :
    dictMem (p :: d) k = ((p.1 = k) || dictMem d k) := by
  by_cases h : p.1 = k <;> simp [dictMem, h]

lemma dictMem_eq_isSome {α : Type} (d : List (String × α)) (k : String) :
    dictMem d k = (dictFind d k).isSome := by
  induction d with
  | nil => rfl
  | cons p d ih =>
    rw [dictMem_cons, dictFind_cons]
    by_cases h : p.1 = k <;> simp [h, ih]

lemma dictMem_iff_mem_keys {α : Type} (d : List (String × α)) (k : String) :
    dictMem d k = true ↔ k ∈ d.map Prod.fst := by
  induction d with
  | nil => simp [dictMem]
  | cons p d ih =>
    rw [dictMem_cons]
    by_cases h : p.1 = k
    · simp [h]
    · have : ¬ k = p.1 := fun he => h he.symm
      simp [h, ih, this]

lemma dictFind_update {α : Type} (d : List (String × α)) (k k' : String) (f : α → α) :
    dictFind (dictUpdate d k f) k' =
      if k' = k then (dictFind d k').map f else dictFind d k' := by
  induction d with
  | nil => simp [dictUpdate, dictFind_nil]
  | cons p d ih =>
    by_cases hk : p.1 = k
    · have hb : (p.1 == k) = true := by simp [hk]
      by_cases hk' : p.1 = k'
      · have he : k' = k := hk' ▸ hk
        simp [dictUpdate, hb, dictFind_cons, hk', he]
      · have he : ¬ k' = k := fun h => hk' (h ▸ hk)
        have he2 : ¬ k = k' := fun h => he h.symm
        simp [dictUpdate, hb, dictFind_cons, hk, hk', he, he2]
    · have hb : (p.1 == k) = false := by simp [hk]
      by_cases hk' : p.1 = k'
      · have he : ¬ k' = k := fun h => hk (h ▸ hk')
        simp [dictUpdate, hb, dictFind_cons, hk', he]
      · simp [dictUpdate, hb, dictFind_cons, hk', ih]

lemma keys_update {α : Type} (d : List (String × α)) (k : String) (f : α → α) :
    (dictUpdate d k f).map Prod.fst = d.map Prod.fst := by
  induction d with
  | nil => rfl
  | cons p d ih =>
    by_cases hk : p.1 = k <;> simp [dictUpdate, hk, ih]

lemma dictFind_append {α : Type} (d e : List (String × α)) (k : String) :
    dictFind (d ++ e) k = if dictMem d k then dictFind d k else dictFind e k := by
  induction d with
  | nil => simp [dictMem, dictFind_nil]
  | cons p d ih =>
    by_cases h : p.1 = k
    · simp [dictFind_cons, dictMem_cons, h]
    · simp [dictFind_cons, dictMem_cons, h, ih]

lemma dictMem_append {α : Type} (d e : List (String × α)) (k : String) :
    dictMem (d ++ e) k = (dictMem d k || dictMem e k) := by
  simp [dictMem]

lemma sumSnd_update_add (d : List (String × Int)) (k : String) (v : Int)
    (hmem : dictMem d k = true) :
    ((dictUpdate d k (· + v)).map Prod.snd).sum = (d.map Prod.snd).sum + v := by
  induction d with
  | nil => simp [dictMem] at hmem
  | cons p d ih =>
    rw [dictMem_cons] at hmem
    by_cases hk : p.1 = k
    · simp [dictUpdate, hk]
      ring
    · simp [hk] at hmem
      simp [dictUpdate, hk, ih hmem]
      ring

lemma dictFind_of_mem_nodup {α : Type} (d : List (String × α)) (k : String) (v : α)
    (hnd : (d.map Prod.fst).Nodup) (hmem : (k, v) ∈ d) : dictFind d k = some v := by
  induction d with
  | nil => simp at hmem
  | cons p d ih =>
    simp only [List.map_cons, List.nodup_cons] at hnd
    rcases List.mem_cons.mp hmem with h | h
    · subst h
      simp [dictFind_cons]
    · have hk : ¬ p.1 = k := by
        intro he
        exact hnd.1 (he ▸ (List.mem_map.mpr ⟨(k, v), h, rfl⟩))
      rw [dictFind_cons, if_neg hk]
      exact ih hnd.2 h

/-! ### Sum lemmas -/

lemma sumAmounts_nil : sumAmounts [] = 0 := rfl

lemma sumAmounts_cons (r : Row) (l : List Row) :
    sumAmounts (r :: l) = r.amount + sumAmounts l := by
  simp [sumAmounts]

lemma sumAmounts_filter_cons (p : Row → Bool) (r : Row) (l : List Row) :
    sumAmounts ((r :: l).filter p) =
      (if p r then r.amount else 0) + sumAmounts (l.filter p) := by
  by_cases h : p r <;> simp [List.filter_cons, h, sumAmounts_cons]

lemma sumAmounts_filter_split (l : List Row) (p q : Row → Bool) :
    sumAmounts (l.filter fun r => p r && q r) + sumAmounts (l.filter fun r => p r && !q r) =
      sumAmounts (l.filter p) := by
  induction l with
  | nil => simp [sumAmounts]
  | cons r l ih =>
    rw [sumAmounts_filter_cons, sumAmounts_filter_cons, sumAmounts_filter_cons]
    by_cases hp : p r <;> by_cases hq : q r <;> simp [hp, hq] <;> omega

lemma sum_map_add {α : Type} (l : List α) (f g : α → Int) :
    (l.map fun x => f x + g x).sum = (l.map f).sum + (l.map g).sum := by
  induction l with
  | nil => simp
  | cons x l ih => simp [ih]; ring

/-! ### Totals lemmas -/

lemma addT_zero_left (t : Totals) : addT ⟨0, 0, 0⟩ t = t := by
  simp [addT]

lemma addT_zero_right (t : Totals) : addT t ⟨0, 0, 0⟩ = t := by
  simp [addT]

lemma addT_assoc (a b c : Totals) : addT (addT a b) c = addT a (addT b c) := by
  simp [addT]; refine ⟨by ring, by ring, by ring⟩

/-! ### More dictionary lemmas -/

lemma dictMem_eq_of_keys_eq {α β : Type} (d : List (String × α)) (e : List (String × β))
    (h : d.map Prod.fst = e.map Prod.fst) (k : String) : dictMem d k = dictMem e k := by
  have hd := dictMem_iff_mem_keys d k
  have he := dictMem_iff_mem_keys e k
  rw [h] at hd
  cases hdm : dictMem d k <;> cases hem : dictMem e k <;> simp_all

lemma dictFind_append_old {α : Type} (d : List (String × α)) (m k : String) (z : α)
    (h : ¬ k = m) : dictFind (d ++ [(m, z)]) k = dictFind d k := by
  rw [dictFind_append]
  by_cases hd : dictMem d k
  · simp [hd]
  · have hn : dictFind d k = none := by
      have := dictMem_eq_isSome d k
      rw [this] at hd
      simpa using hd
    have hm : ¬ m = k := fun he => h he.symm
    simp [hd, hn, dictFind_cons, hm, dictFind_nil]

lemma dictFind_append_at {α : Type} (d : List (String × α)) (m : String) (z : α)
    (hmem : dictMem d m = false) : dictFind (d ++ [(m, z)]) m = some z := by
  rw [dictFind_append, hmem]
  simp [dictFind_cons]

/-! ### Month membership lemmas -/

lemma inMonth_self {r : Row} {mr : String} (hm : rowMonth r = some mr) :
    inMonth mr r = true := by
  simp [inMonth, hm]

lemma inMonth_other {r : Row} {mr k : String} (hm : rowMonth r = some mr) (h : ¬ k = mr) :
    inMonth k r = false := by
  simp only [inMonth, hm]
  simp only [beq_eq_false_iff_ne, ne_eq, Option.some.injEq]
  exact fun he => h he.symm

lemma specTotals_single {r : Row} {mr : String} (hm : rowMonth r = some mr) (k : String) :
    specTotals [r] k =
      if k = mr then
        (if isExpense r then
          (if outlierVal r == 1 then ⟨0, 0, r.amount⟩ else ⟨0, r.amount, 0⟩)
         else ⟨r.amount, 0, 0⟩)
      else ⟨0, 0, 0⟩ := by
  by_cases hk : k = mr
  · subst hk
    have hin : inMonth k r = true := inMonth_self hm
    cases hex : isExpense r
    · simp [specTotals, incomeOf, cleanOf, outlierOf, List.filter, hin, hex, sumAmounts]
    · cases hout : (outlierVal r == 1)
      · simp [specTotals, incomeOf, cleanOf, outlierOf, List.filter, hin, hex, hout, sumAmounts]
      · simp [specTotals, incomeOf, cleanOf, outlierOf, List.filter, hin, hex, hout, sumAmounts]
  · have hin : inMonth k r = false := inMonth_other hm hk
    simp [specTotals, incomeOf, cleanOf, outlierOf, List.filter, hin, hk, sumAmounts]

/-! ### Step lemmas for the aggregation loop -/

lemma stepRow_none {st : AggState} {r : Row} (hm : rowMonth r = none) :
    stepRow st r = none := by
  simp [stepRow, hm]

lemma stepRow_isSome {st : AggState} {r : Row} (hm : (rowMonth r).isSome) :
    (stepRow st r).isSome := by
  rcases Option.isSome_iff_exists.mp hm with ⟨mr, hmr⟩
  simp [stepRow, hmr]

lemma stepRow_bucketTotals {st st' : AggState} {r : Row} {mr : String}
    (hm : rowMonth r = some mr) (hkeys : dataKeys st = monthKeys st)
    (h : stepRow st r = some st') (k : String) :
    bucketTotals st' k = addT (bucketTotals st k) (specTotals [r] k) := by
  have hTD : ∀ k', dictMem st.month_data k' = dictMem st.monthly_income_expense k' :=
    fun k' => dictMem_eq_of_keys_eq _ _ hkeys k'
  rw [specTotals_single hm k]
  by_cases hmem : dictMem st.month_data mr
  · -- existing bucket: only the totals dictionary entry at mr changes
    have hTmem : dictMem st.monthly_income_expense mr = true := (hTD mr) ▸ hmem
    rcases Option.isSome_iff_exists.mp ((dictMem_eq_isSome _ mr) ▸ hTmem) with ⟨t, ht⟩
    cases hex : (r.rtype == "expense") <;> [skip; cases hout : (outlierVal r == 1)] <;>
      · simp only [stepRow, hm, hmem, if_true, hex] at h
        first
        | (rw [if_pos rfl] at h)
        | (try rw [hout] at h)
        try simp only [Bool.false_eq_true, if_false, if_true] at h
        rw [Option.some.injEq] at h
        subst h
        simp only [bucketTotals, dictFind_update, ht]
        by_cases hk : k = mr <;>
          simp [hk, ht, addT, addIncome, addClean, addOutlier, isExpense, hex] <;>
          try simp [hout] <;>
          omega
  · -- new bucket appended with zero totals, then updated at mr
    have hmemf : dictMem st.month_data mr = false := by simpa using hmem
    have hTmem : dictMem st.monthly_income_expense mr = false := by
      have := hTD mr
      rw [hmemf] at this
      exact this.symm
    have hTnone : dictFind st.monthly_income_expense mr = none := by
      have := dictMem_eq_isSome st.monthly_income_expense mr
      rw [hTmem] at this
      simpa using this.symm
    cases hex : (r.rtype == "expense") <;> [skip; cases hout : (outlierVal r == 1)] <;>
      · simp only [stepRow, hm, hmem, if_false, hex] at h
        first
        | (rw [if_pos rfl] at h)
        | (try rw [hout] at h)
        try simp only [Bool.false_eq_true, if_false, if_true] at h
        rw [Option.some.injEq] at h
        subst h
        simp only [bucketTotals, dictFind_update]
        by_cases hk : k = mr
        · subst hk
          rw [dictFind_append_at _ _ _ hTmem, hTnone]
          simp [addT, addIncome, addClean, addOutlier, isExpense, hex] <;>
            try simp [hout] <;> omega
        · rw [dictFind_append_old _ _ _ _ hk]
          simp [hk, addT]

lemma stepRow_month_data {st st' : AggState} {r : Row} {mr : String}
    (hm : rowMonth r = some mr) (h : stepRow st r = some st') :
    st'.month_data =
      dictUpdate (if dictMem st.month_data mr then st.month_data
                  else st.month_data ++ [(mr, [])]) mr (fun l => l ++ [r]) := by
  cases hex : (r.rtype == "expense") <;> [skip; cases hout : (outlierVal r == 1)] <;>
    · simp only [stepRow, hm, hex] at h
      try rw [hout] at h
      try simp only [Bool.false_eq_true, if_false, if_true] at h
      rw [Option.some.injEq] at h
      subst h
      by_cases hmem : dictMem st.month_data mr <;> simp [hmem]

lemma stepRow_bucketRows {st st' : AggState} {r : Row} {mr : String}
    (hm : rowMonth r = some mr) (h : stepRow st r = some st') (k : String) :
    bucketRows st' k = bucketRows st k ++ (if inMonth k r then [r] else []) := by
  rw [bucketRows, stepRow_month_data hm h, dictFind_update]
  by_cases hk : k = mr
  · subst hk
    rw [if_pos rfl, inMonth_self hm, if_pos rfl]
    by_cases hmem : dictMem st.month_data k
    · rcases Option.isSome_iff_exists.mp ((dictMem_eq_isSome _ k) ▸ hmem) with ⟨l, hl⟩
      simp [hmem, hl, bucketRows]
    · have hmemf : dictMem st.month_data k = false := by simpa using hmem
      have hnone : dictFind st.month_data k = none := by
        have := dictMem_eq_isSome st.month_data k
        rw [hmemf] at this
        simpa using this.symm
      simp [hmemf, dictFind_append_at _ _ _ hmemf, bucketRows, hnone]
  · rw [if_neg hk, inMonth_other hm hk]
    simp only [Bool.false_eq_true, if_false, List.append_nil, bucketRows]
    by_cases hmem : dictMem st.month_data mr
    · simp [hmem]
    · have hmemf : dictMem st.month_data mr = false := by simpa using hmem
      rw [if_neg (by simp [hmemf]), dictFind_append_old _ _ _ _ hk]

lemma stepRow_memData {st st' : AggState} {r : Row} {mr : String}
    (hm : rowMonth r = some mr) (h : stepRow st r = some st') (k : String) :
    dictMem st'.month_data k = (dictMem st.month_data k || inMonth k r) := by
  have hkeys' : st'.month_data.map Prod.fst =
      (if dictMem st.month_data mr then st.month_data
       else st.month_data ++ [(mr, [])]).map Prod.fst := by
    rw [stepRow_month_data hm h, keys_update]
  have hmm := dictMem_eq_of_keys_eq _ _ hkeys' k
  rw [hmm]
  by_cases hk : k = mr
  · subst hk
    rw [inMonth_self hm]
    by_cases hmem : dictMem st.month_data k
    · simp [hmem]
    · have hmemf : dictMem st.month_data k = false := by simpa using hmem
      rw [if_neg (by simp [hmemf]), dictMem_append, hmemf]
      simp [dictMem_cons, dictMem]
  · rw [inMonth_other hm hk]
    by_cases hmem : dictMem st.month_data mr
    · simp [hmem]
    · have hmemf : dictMem st.month_data mr = false := by simpa using hmem
      have hmk : ¬ mr = k := fun he => hk he.symm
      rw [if_neg (by simp [hmemf]), dictMem_append]
      simp [dictMem_cons, dictMem, hmk]

lemma stepRow_dataKeys {st st' : AggState} {r : Row} {mr : String}
    (hm : rowMonth r = some mr) (h : stepRow st r = some st') :
    dataKeys st' =
      (if dictMem st.month_data mr then dataKeys st else dataKeys st ++ [mr]) := by
  rw [dataKeys, stepRow_month_data hm h, keys_update]
  by_cases hmem : dictMem st.month_data mr
  · simp [hmem, dataKeys]
  · have hmemf : dictMem st.month_data mr = false := by simpa using hmem
    simp [hmemf, dataKeys]

lemma stepRow_monthKeys {st st' : AggState} {r : Row} {mr : String}
    (hm : rowMonth r = some mr) (h : stepRow st r = some st') :
    monthKeys st' =
      (if dictMem st.month_data mr then monthKeys st else monthKeys st ++ [mr]) := by
  cases hex : (r.rtype == "expense") <;> [skip; cases hout : (outlierVal r == 1)] <;>
    · simp only [stepRow, hm, hex] at h
      try rw [hout] at h
      try simp only [Bool.false_eq_true, if_false, if_true] at h
      rw [Option.some.injEq] at h
      subst h
      by_cases hmem : dictMem st.month_data mr <;>
        simp [monthKeys, keys_update, hmem]

lemma stepRow_inv {st st' : AggState} {r : Row} {mr : String}
    (hm : rowMonth r = some mr) (h : stepRow st r = some st') (hinv : Inv st) : Inv st' := by
  rcases hinv with ⟨hkeys, hnd⟩
  constructor
  · rw [stepRow_dataKeys hm h, stepRow_monthKeys hm h, hkeys]
  · rw [stepRow_dataKeys hm h]
    by_cases hmem : dictMem st.month_data mr
    · simpa [hmem] using hnd
    · have hmemf : dictMem st.month_data mr = false := by simpa using hmem
      have hnotin : mr ∉ dataKeys st := by
        intro hin
        rw [(dictMem_iff_mem_keys st.month_data mr).mpr hin] at hmemf
        cases hmemf
      simp only [hmemf, Bool.false_eq_true, if_false]
      rw [← List.concat_eq_append]
      exact List.Nodup.concat hnotin hnd

/-! ### Loop lemmas -/

lemma specTotals_cons (r : Row) (rs : List Row) (k : String) :
    specTotals (r :: rs) k = addT (specTotals [r] k) (specTotals rs k) := by
  simp only [specTotals, incomeOf, cleanOf, outlierOf, addT, sumAmounts_filter_cons,
    List.filter_nil, sumAmounts_nil, Totals.mk.injEq]
  omega

lemma aggLoop_none_of_bad {rows : List Row} {r : Row} (hr : r ∈ rows)
    (hbad : rowMonth r = none) (st : AggState) : aggLoop st rows = none := by
  induction rows generalizing st with
  | nil => simp at hr
  | cons x rs ih =>
    rcases List.mem_cons.mp hr with he | hmem
    · subst he
      simp [aggLoop, stepRow_none hbad]
    · cases hs : stepRow st x
      · simp [aggLoop, hs]
      · simp [aggLoop, hs, ih hmem]

lemma aggLoop_some {rows : List Row} {st : AggState}
    (hall : ∀ r ∈ rows, (rowMonth r).isSome) : (aggLoop st rows).isSome := by
  induction rows generalizing st with
  | nil => simp [aggLoop]
  | cons x rs ih =>
    have hx := hall x (List.mem_cons_self x rs)
    cases hs : stepRow st x
    · have := @stepRow_isSome st x hx
      rw [hs] at this
      cases this
    · simpa [aggLoop, hs] using ih (fun r hr => hall r (List.mem_cons_of_mem x hr))

lemma aggLoop_step_extract {st st' : AggState} {r : Row} {rs : List Row}
    (h : aggLoop st (r :: rs) = some st') :
    ∃ mr st2, rowMonth r = some mr ∧ stepRow st r = some st2 ∧ aggLoop st2 rs = some st' := by
  cases hs : stepRow st r with
  | none => simp [aggLoop, hs] at h
  | some st2 =>
    cases hm : rowMonth r with
    | none => rw [stepRow_none hm] at hs; cases hs
    | some mr =>
      refine ⟨mr, st2, rfl, rfl, ?_⟩
      simpa [aggLoop, hs] using h

lemma aggLoop_inv {rows : List Row} {st st' : AggState}
    (hinv : Inv st) (h : aggLoop st rows = some st') : Inv st' := by
  induction rows generalizing st with
  | nil =>
    have he : st = st' := by simpa [aggLoop] using h
    exact he ▸ hinv
  | cons r rs ih =>
    rcases aggLoop_step_extract h with ⟨mr, st2, hm, hs, h2⟩
    exact ih (stepRow_inv hm hs hinv) h2

lemma aggLoop_bucketTotals {rows : List Row} {st st' : AggState}
    (hinv : Inv st) (h : aggLoop st rows = some st') (k : String) :
    bucketTotals st' k = addT (bucketTotals st k) (specTotals rows k) := by
  induction rows generalizing st with
  | nil =>
    have he : st = st' := by simpa [aggLoop] using h
    subst he
    simp [specTotals, incomeOf, cleanOf, outlierOf, sumAmounts_nil, addT]
  | cons r rs ih =>
    rcases aggLoop_step_extract h with ⟨mr, st2, hm, hs, h2⟩
    rw [ih (stepRow_inv hm hs hinv) h2, stepRow_bucketTotals hm hinv.1 hs k]
    conv_rhs => rw [specTotals_cons r rs k]
    exact addT_assoc _ _ _

lemma aggLoop_bucketRows {rows : List Row} {st st' : AggState}
    (h : aggLoop st rows = some st') (k : String) :
    bucketRows st' k = bucketRows st k ++ rows.filter (inMonth k) := by
  induction rows generalizing st with
  | nil =>
    have he : st = st' := by simpa [aggLoop] using h
    subst he
    simp
  | cons r rs ih =>
    rcases aggLoop_step_extract h with ⟨mr, st2, hm, hs, h2⟩
    rw [ih h2, stepRow_bucketRows hm hs k, List.filter_cons]
    cases hin : inMonth k r <;> simp [hin]

lemma aggLoop_memData {rows : List Row} {st st' : AggState}
    (h : aggLoop st rows = some st') (k : String) :
    dictMem st'.month_data k = (dictMem st.month_data k || rows.any (inMonth k)) := by
  induction rows generalizing st with
  | nil =>
    have he : st = st' := by simpa [aggLoop] using h
    subst he
    simp
  | cons r rs ih =>
    rcases aggLoop_step_extract h with ⟨mr, st2, hm, hs, h2⟩
    rw [ih h2, stepRow_memData hm hs k, List.any_cons]
    cases dictMem st.month_data k <;> cases hin : inMonth k r <;> simp [hin]

lemma newMonths_congr {s1 s2 : List String} (h : ∀ x, x ∈ s1 ↔ x ∈ s2) (rows : List Row) :
    newMonths s1 rows = newMonths s2 rows := by
  induction rows generalizing s1 s2 with
  | nil => rfl
  | cons r rs ih =>
    cases hm : rowMonth r with
    | none => simp [newMonths, hm, ih h]
    | some m =>
      by_cases hmem : m ∈ s1
      · simp [newMonths, hm, hmem, (h m).mp hmem, ih h]
      · have hmem2 : m ∉ s2 := fun hc => hmem ((h m).mpr hc)
        have h' : ∀ x, x ∈ m :: s1 ↔ x ∈ m :: s2 := by
          intro x
          simp [h x]
        simp [newMonths, hm, hmem, hmem2, ih h']

lemma aggLoop_monthKeys {rows : List Row} {st st' : AggState}
    (hinv : Inv st) (h : aggLoop st rows = some st') :
    monthKeys st' = monthKeys st ++ newMonths (monthKeys st) rows := by
  induction rows generalizing st with
  | nil =>
    have he : st = st' := by simpa [aggLoop] using h
    subst he
    simp [newMonths]
  | cons r rs ih =>
    rcases aggLoop_step_extract h with ⟨mr, st2, hm, hs, h2⟩
    have hinv2 := stepRow_inv hm hs hinv
    have hkeys2 := stepRow_monthKeys hm hs
    by_cases hmem : dictMem st.month_data mr
    · have hin : mr ∈ monthKeys st := by
        rw [← hinv.1]
        exact (dictMem_iff_mem_keys _ _).mp hmem
      rw [if_pos hmem] at hkeys2
      rw [ih hinv2 h2, hkeys2, newMonths, hm]
      simp [hin]
    · have hmemf : dictMem st.month_data mr = false := by simpa using hmem
      have hnotin : mr ∉ monthKeys st := by
        rw [← hinv.1]
        intro hc
        rw [(dictMem_iff_mem_keys _ _).mpr hc] at hmemf
        cases hmemf
      rw [if_neg hmem] at hkeys2
      rw [ih hinv2 h2, hkeys2, newMonths, hm]
      simp only [hnotin, if_false, ite_false]
      rw [@newMonths_congr (monthKeys st ++ [mr]) (mr :: monthKeys st) (by intro x; simp [or_comm]) rs]
      simp [hnotin]

lemma newMonths_sub {seen : List String} {rows : List Row} {k : String}
    (h : k ∈ newMonths seen rows) : ∃ r ∈ rows, rowMonth r = some k := by
  induction rows generalizing seen with
  | nil => simp [newMonths] at h
  | cons r rs ih =>
    cases hm : rowMonth r with
    | none =>
      simp only [newMonths, hm] at h
      rcases ih h with ⟨r', hr', hk⟩
      exact ⟨r', List.mem_cons_of_mem r hr', hk⟩
    | some m =>
      simp only [newMonths, hm] at h
      by_cases hmem : m ∈ seen
      · rw [if_pos hmem] at h
        rcases ih h with ⟨r', hr', hk⟩
        exact ⟨r', List.mem_cons_of_mem r hr', hk⟩
      · rw [if_neg hmem] at h
        rcases List.mem_cons.mp h with he | h'
        · exact ⟨r, List.mem_cons_self r rs, he ▸ hm⟩
        · rcases ih h' with ⟨r', hr', hk⟩
          exact ⟨r', List.mem_cons_of_mem r hr', hk⟩

/-! ### Aggregate-level characterization -/

lemma initState_inv : Inv initState := ⟨rfl, List.nodup_nil⟩

lemma aggregate_inv {rows : List Row} {st : AggState} (h : aggregate rows = some st) :
    Inv st :=
  aggLoop_inv initState_inv h

lemma aggregate_bucketTotals {rows : List Row} {st : AggState}
    (h : aggregate rows = some st) (k : String) :
    bucketTotals st k = specTotals rows k := by
  have := aggLoop_bucketTotals initState_inv h k
  rw [this]
  have hz : bucketTotals initState k = ⟨0, 0, 0⟩ := rfl
  rw [hz, addT_zero_left]

lemma aggregate_bucketRows {rows : List Row} {st : AggState}
    (h : aggregate rows = some st) (k : String) :
    bucketRows st k = rows.filter (inMonth k) := by
  have := aggLoop_bucketRows h k
  rw [this]
  rfl

lemma aggregate_memData {rows : List Row} {st : AggState}
    (h : aggregate rows = some st) (k : String) :
    dictMem st.month_data k = rows.any (inMonth k) := by
  have := aggLoop_memData h k
  rw [this]
  rfl

lemma aggregate_monthKeys {rows : List Row} {st : AggState}
    (h : aggregate rows = some st) :
    monthKeys st = newMonths [] rows := by
  have := aggLoop_monthKeys initState_inv h
  simpa [initState, monthKeys] using this

lemma aggregate_mem_monthKeys {rows : List Row} {st : AggState}
    (h : aggregate rows = some st) (k : String) :
    k ∈ monthKeys st ↔ rows.any (inMonth k) = true := by
  have h1 : k ∈ monthKeys st ↔ dictMem st.month_data k = true := by
    rw [← (aggregate_inv h).1]
    exact (dictMem_iff_mem_keys st.month_data k).symm
  rw [h1, aggregate_memData h k]

/-! ### Category breakdown lemmas -/

lemma catSum_nil (c : String) : catSum [] c = 0 := rfl

lemma catSum_cons (r : Row) (l : List Row) (c : String) :
    catSum (r :: l) c = (if catPred c r then r.amount else 0) + catSum l c := by
  rw [catSum, sumAmounts_filter_cons]
  rfl

lemma dictAdd_val (d : List (String × Int)) (k c : String) (v : Int) :
    (dictFind (dictAdd d k v) c).getD 0 =
      (dictFind d c).getD 0 + (if c = k then v else 0) := by
  by_cases hmem : dictMem d k
  · rw [dictAdd, if_pos hmem, dictFind_update]
    by_cases hc : c = k
    · subst hc
      rcases Option.isSome_iff_exists.mp ((dictMem_eq_isSome _ c) ▸ hmem) with ⟨t, ht⟩
      simp [ht]
    · simp [hc]
  · have hmemf : dictMem d k = false := by simpa using hmem
    rw [dictAdd, if_neg (by simp [hmemf])]
    by_cases hc : c = k
    · subst hc
      have hnone : dictFind d c = none := by
        have := dictMem_eq_isSome d c
        rw [hmemf] at this
        simpa using this.symm
      rw [dictFind_append_at _ _ _ hmemf, hnone]
      simp
    · rw [dictFind_append_old _ _ _ _ hc]
      simp [hc]

lemma dictAdd_sumSnd (d : List (String × Int)) (k : String) (v : Int) :
    ((dictAdd d k v).map Prod.snd).sum = (d.map Prod.snd).sum + v := by
  by_cases hmem : dictMem d k
  · rw [dictAdd, if_pos hmem]
    exact sumSnd_update_add d k v hmem
  · have hmemf : dictMem d k = false := by simpa using hmem
    rw [dictAdd, if_neg (by simp [hmemf])]
    simp

lemma ebcAux_val (l : List Row) (acc : List (String × Int)) (c : String) :
    (dictFind (ebcAux acc l) c).getD 0 = (dictFind acc c).getD 0 + catSum l c := by
  induction l generalizing acc with
  | nil => simp [ebcAux, catSum_nil]
  | cons r rs ih =>
    rw [ebcAux, ih, catSum_cons]
    cases hf : catFilter r
    · have hp : catPred c r = false := by simp [catPred, hf]
      simp [hp]
    · rw [if_pos rfl, dictAdd_val]
      have hp : (if catPred c r then r.amount else 0) = (if c = r.category then r.amount else 0) := by
        by_cases hc : c = r.category
        · have ht : catPred c r = true := by
            subst hc
            simp [catPred, hf]
          rw [if_pos ht, if_pos hc]
        · have ht : catPred c r = false := by
            simp [catPred, hf]
            exact fun he => hc he.symm
          rw [if_neg (by simp [ht]), if_neg hc]
      rw [hp]
      ring

lemma ebcAux_sumSnd (l : List Row) (acc : List (String × Int)) :
    ((ebcAux acc l).map Prod.snd).sum =
      (acc.map Prod.snd).sum + sumAmounts (l.filter catFilter) := by
  induction l generalizing acc with
  | nil => simp [ebcAux, sumAmounts_nil]
  | cons r rs ih =>
    rw [ebcAux, ih, sumAmounts_filter_cons]
    cases hf : catFilter r
    · simp [hf]
    · rw [if_pos rfl, dictAdd_sumSnd]
      simp
      ring

lemma expense_by_category_sum (l : List Row) :
    ((expense_by_category l).map Prod.snd).sum = sumAmounts (l.filter catFilter) := by
  rw [expense_by_category, ebcAux_sumSnd]
  simp

lemma catValue_eq_catSum (l : List Row) (c : String) :
    catValue l c = catSum l c := by
  rw [catValue, expense_by_category, ebcAux_val]
  simp [dictFind_nil]

/-! ### Digit and key-string lemmas -/

lemma digitVal_digitChar {d : Nat} (h : d < 10) : digitVal (digitChar d) = d := by
  interval_cases d <;> decide

lemma digitChar_lt_iff {d e : Nat} (hd : d < 10) (he : e < 10) :
    digitChar d < digitChar e ↔ d < e := by
  interval_cases d <;> interval_cases e <;> decide

lemma digitChar_inj_iff {d e : Nat} (hd : d < 10) (he : e < 10) :
    digitChar d = digitChar e ↔ d = e := by
  interval_cases d <;> interval_cases e <;> decide

lemma isDigit_toNat {c : Char} (h : c.isDigit = true) : 48 ≤ c.toNat ∧ c.toNat ≤ 57 := by
  simp [Char.isDigit] at h
  exact h

lemma readDigits_digits (cs : List Char) : ∀ c ∈ (readDigits cs).1, c.isDigit = true := by
  induction cs with
  | nil => intro c hc; simp [readDigits] at hc
  | cons x xs ih =>
    intro c hc
    by_cases hx : x.isDigit
    · rw [readDigits] at hc
      simp only [hx, if_true] at hc
      rcases List.mem_cons.mp hc with he | hmem
      · exact he ▸ hx
      · exact ih c hmem
    · rw [readDigits] at hc
      simp only [hx, Bool.false_eq_true, if_false] at hc
      simp at hc

lemma foldl_digits_lt (ds : List Char) (hds : ∀ c ∈ ds, c.isDigit = true) :
    ∀ a : Nat, List.foldl (fun a c => a * 10 + digitVal c) a ds < (a + 1) * 10 ^ ds.length := by
  induction ds with
  | nil => intro a; simpa using Nat.lt_succ_self a
  | cons c cs ih =>
    intro a
    have hc := hds c (List.mem_cons_self c cs)
    have hcv : digitVal c ≤ 9 := by
      rcases isDigit_toNat hc with ⟨h1, h2⟩
      simp [digitVal]
      omega
    have h1 := ih (fun x hx => hds x (List.mem_cons_of_mem c hx)) (a * 10 + digitVal c)
    have h2 : (a * 10 + digitVal c + 1) * 10 ^ cs.length ≤ (a + 1) * 10 ^ (c :: cs).length := by
      rw [List.length_cons, pow_succ]
      have : a * 10 + digitVal c + 1 ≤ (a + 1) * 10 := by omega
      calc (a * 10 + digitVal c + 1) * 10 ^ cs.length
          ≤ ((a + 1) * 10) * 10 ^ cs.length := Nat.mul_le_mul_right _ this
        _ = (a + 1) * (10 ^ cs.length * 10) := by ring
    calc List.foldl (fun a c => a * 10 + digitVal c) a (c :: cs)
        = List.foldl (fun a c => a * 10 + digitVal c) (a * 10 + digitVal c) cs := rfl
      _ < (a * 10 + digitVal c + 1) * 10 ^ cs.length := h1
      _ ≤ (a + 1) * 10 ^ (c :: cs).length := h2

lemma digitsVal_lt (ds : List Char) (hds : ∀ c ∈ ds, c.isDigit = true) :
    digitsVal ds < 10 ^ ds.length := by
  have := foldl_digits_lt ds hds 0
  simpa [digitsVal] using this

lemma padNat_length (w n : Nat) : (padNat w n).length = w := by
  induction w generalizing n with
  | zero => rfl
  | succ w ih => simp [padNat, ih]

lemma foldl_padNat (w : Nat) : ∀ n a : Nat, n < 10 ^ w →
    List.foldl (fun a c => a * 10 + digitVal c) a (padNat w n) = a * 10 ^ w + n := by
  induction w with
  | zero =>
    intro n a hn
    interval_cases n
    simp [padNat]
  | succ w ih =>
    intro n a hn
    have hq : n / 10 ^ w < 10 := by
      rw [Nat.div_lt_iff_lt_mul (Nat.pos_pow_of_pos w (by norm_num))]
      calc n < 10 ^ (w + 1) := hn
        _ = 10 * 10 ^ w := by ring
        _ ≤ 10 * 10 ^ w := le_rfl
    have hqm : n / 10 ^ w % 10 = n / 10 ^ w := Nat.mod_eq_of_lt hq
    have hr : n % 10 ^ w < 10 ^ w := Nat.mod_lt n (Nat.pos_pow_of_pos w (by norm_num))
    rw [padNat]
    have hstep : List.foldl (fun a c => a * 10 + digitVal c) a
        (digitChar (n / 10 ^ w % 10) :: padNat w (n % 10 ^ w)) =
        List.foldl (fun a c => a * 10 + digitVal c)
          (a * 10 + digitVal (digitChar (n / 10 ^ w % 10))) (padNat w (n % 10 ^ w)) := rfl
    rw [hstep, hqm, digitVal_digitChar hq, ih (n % 10 ^ w) _ hr]
    have hnm := Nat.div_add_mod n (10 ^ w)
    calc (a * 10 + n / 10 ^ w) * 10 ^ w + n % 10 ^ w
        = a * (10 ^ w * 10) + (10 ^ w * (n / 10 ^ w) + n % 10 ^ w) := by ring
      _ = a * 10 ^ (w + 1) + n := by rw [hnm, pow_succ]

lemma digitsVal_padNat {w n : Nat} (hn : n < 10 ^ w) : digitsVal (padNat w n) = n := by
  have := foldl_padNat w n 0 hn
  simpa [digitsVal] using this

lemma padNat_append {w1 w2 : Nat} : ∀ a b : Nat, a < 10 ^ w1 → b < 10 ^ w2 →
    padNat (w1 + w2) (a * 10 ^ w2 + b) = padNat w1 a ++ padNat w2 b := by
  induction w1 with
  | zero =>
    intro a b ha hb
    interval_cases a
    simp [padNat]
  | succ w ih =>
    intro a b ha hb
    have hP2 : 0 < 10 ^ w2 := Nat.pos_pow_of_pos w2 (by norm_num)
    have hPw : 0 < 10 ^ w := Nat.pos_pow_of_pos w (by norm_num)
    have hkey : (a * 10 ^ w2 + b) / 10 ^ (w + w2) = a / 10 ^ w ∧
        (a * 10 ^ w2 + b) % 10 ^ (w + w2) = (a % 10 ^ w) * 10 ^ w2 + b := by
      have hrlt : (a % 10 ^ w) * 10 ^ w2 + b < 10 ^ (w + w2) := by
        have h1 : a % 10 ^ w < 10 ^ w := Nat.mod_lt a hPw
        have h2 : (a % 10 ^ w) * 10 ^ w2 + b < (a % 10 ^ w) * 10 ^ w2 + 10 ^ w2 :=
          Nat.add_lt_add_left hb _
        have h3 : (a % 10 ^ w) * 10 ^ w2 + 10 ^ w2 = (a % 10 ^ w + 1) * 10 ^ w2 := by ring
        have h4 : (a % 10 ^ w + 1) * 10 ^ w2 ≤ 10 ^ w * 10 ^ w2 :=
          Nat.mul_le_mul_right _ (by omega)
        rw [pow_add]
        omega
      have heq : (a % 10 ^ w) * 10 ^ w2 + b + 10 ^ (w + w2) * (a / 10 ^ w) =
          a * 10 ^ w2 + b := by
        have hnm := Nat.div_add_mod a (10 ^ w)
        rw [pow_add]
        calc (a % 10 ^ w) * 10 ^ w2 + b + 10 ^ w * 10 ^ w2 * (a / 10 ^ w)
            = (10 ^ w * (a / 10 ^ w) + a % 10 ^ w) * 10 ^ w2 + b := by ring
          _ = a * 10 ^ w2 + b := by rw [hnm]
      have := (Nat.div_mod_unique (Nat.pos_pow_of_pos (w + w2) (by norm_num))).mpr
        ⟨heq, hrlt⟩
      exact ⟨this.1, this.2⟩
    have hsucc : w + 1 + w2 = (w + w2) + 1 := by omega
    rw [hsucc, padNat, hkey.1, hkey.2, padNat,
      ih (a % 10 ^ w) b (Nat.mod_lt a hPw) hb]
    rfl

lemma lex_cons_iff' {x y : Char} {xs ys : List Char} :
    List.Lex (· < ·) (x :: xs) (y :: ys) ↔ x < y ∨ (x = y ∧ List.Lex (· < ·) xs ys) := by
  constructor
  · intro h
    cases h with
    | cons h => exact Or.inr ⟨rfl, h⟩
    | rel h => exact Or.inl h
  · intro h
    rcases h with h | ⟨he, h⟩
    · exact List.Lex.rel h
    · exact he ▸ List.Lex.cons h

lemma nat_lt_iff_div_mod {P a b : Nat} (hP : 0 < P) :
    a < b ↔ (a / P < b / P ∨ (a / P = b / P ∧ a % P < b % P)) := by
  have ha := Nat.div_add_mod a P
  have hb := Nat.div_add_mod b P
  have hma : a % P < P := Nat.mod_lt a hP
  have hmb : b % P < P := Nat.mod_lt b hP
  constructor
  · intro h
    rcases Nat.lt_or_ge (a / P) (b / P) with hq | hq
    · exact Or.inl hq
    · have hq3 : a / P ≤ b / P := Nat.div_le_div_right (Nat.le_of_lt h)
      have hqe : a / P = b / P := Nat.le_antisymm hq3 hq
      refine Or.inr ⟨hqe, ?_⟩
      rw [← hqe] at hb
      omega
  · intro h
    rcases h with hq | ⟨hq, hm⟩
    · have h3 : P * (a / P + 1) ≤ P * (b / P) := Nat.mul_le_mul_left P (by omega)
      have h2 : P * (a / P) + P = P * (a / P + 1) := by ring
      omega
    · rw [← hq] at hb
      omega

lemma padNat_lex_iff (w : Nat) : ∀ a b : Nat, a < 10 ^ w → b < 10 ^ w →
    (List.Lex (· < ·) (padNat w a) (padNat w b) ↔ a < b) := by
  induction w with
  | zero =>
    intro a b ha hb
    interval_cases a
    interval_cases b
    rw [padNat]
    constructor
    · intro h
      cases h
    · intro h
      omega
  | succ w ih =>
    intro a b ha hb
    have hPw : 0 < 10 ^ w := Nat.pos_pow_of_pos w (by norm_num)
    have hqa : a / 10 ^ w < 10 := by
      rw [Nat.div_lt_iff_lt_mul hPw]
      calc a < 10 ^ (w + 1) := ha
        _ = 10 * 10 ^ w := by ring
    have hqb : b / 10 ^ w < 10 := by
      rw [Nat.div_lt_iff_lt_mul hPw]
      calc b < 10 ^ (w + 1) := hb
        _ = 10 * 10 ^ w := by ring
    have hma : a / 10 ^ w % 10 = a / 10 ^ w := Nat.mod_eq_of_lt hqa
    have hmb : b / 10 ^ w % 10 = b / 10 ^ w := Nat.mod_eq_of_lt hqb
    rw [padNat, padNat, hma, hmb, lex_cons_iff', digitChar_lt_iff hqa hqb,
      digitChar_inj_iff hqa hqb,
      ih (a % 10 ^ w) (b % 10 ^ w) (Nat.mod_lt a hPw) (Nat.mod_lt b hPw),
      @nat_lt_iff_div_mod (10 ^ w) a b hPw]

lemma monthKeyYM_data (y m : Nat) (hy : y < 10 ^ 4) (hm : m < 10 ^ 2) :
    (monthKeyYM y m).data = padNat 6 (y * 100 + m) := by
  have h := @padNat_append 4 2 y m hy hm
  rw [monthKeyYM]
  simpa using h.symm

lemma monthKeyYM_lt_iff {y1 m1 y2 m2 : Nat}
    (hy1 : y1 < 10 ^ 4) (hm1 : m1 < 10 ^ 2) (hy2 : y2 < 10 ^ 4) (hm2 : m2 < 10 ^ 2) :
    monthKeyYM y1 m1 < monthKeyYM y2 m2 ↔ 100 * y1 + m1 < 100 * y2 + m2 := by
  have hb1 : y1 * 100 + m1 < 10 ^ 6 := by
    have : y1 ≤ 10 ^ 4 - 1 := by omega
    calc y1 * 100 + m1 ≤ (10 ^ 4 - 1) * 100 + m1 := by
          exact Nat.add_le_add_right (Nat.mul_le_mul_right _ this) m1
      _ < 10 ^ 6 := by norm_num; omega
  have hb2 : y2 * 100 + m2 < 10 ^ 6 := by
    have : y2 ≤ 10 ^ 4 - 1 := by omega
    calc y2 * 100 + m2 ≤ (10 ^ 4 - 1) * 100 + m2 := by
          exact Nat.add_le_add_right (Nat.mul_le_mul_right _ this) m2
      _ < 10 ^ 6 := by norm_num; omega
  rw [String.lt_iff_toList_lt]
  have h1 : (monthKeyYM y1 m1).toList = padNat 6 (y1 * 100 + m1) := monthKeyYM_data y1 m1 hy1 hm1
  have h2 : (monthKeyYM y2 m2).toList = padNat 6 (y2 * 100 + m2) := monthKeyYM_data y2 m2 hy2 hm2
  rw [h1, h2]
  have := padNat_lex_iff 6 (y1 * 100 + m1) (y2 * 100 + m2) hb1 hb2
  rw [show (y1 * 100 + m1 < y2 * 100 + m2) ↔ (100 * y1 + m1 < 100 * y2 + m2) by omega] at this
  exact this

lemma monthKeyYM_le_iff {y1 m1 y2 m2 : Nat}
    (hy1 : y1 < 10 ^ 4) (hm1 : m1 < 10 ^ 2) (hy2 : y2 < 10 ^ 4) (hm2 : m2 < 10 ^ 2) :
    monthKeyYM y1 m1 ≤ monthKeyYM y2 m2 ↔ 100 * y1 + m1 ≤ 100 * y2 + m2 := by
  rw [← not_lt, ← not_lt, monthKeyYM_lt_iff hy2 hm2 hy1 hm1]

lemma keyRank_monthKeyYM {y m : Nat} (hy : y < 10 ^ 4) (hm : m < 10 ^ 2) :
    keyRank (monthKeyYM y m) = 100 * y + m := by
  rw [keyRank, monthKeyYM]
  have hl : (padNat 4 y).length = 4 := padNat_length 4 y
  have ht : (padNat 4 y ++ padNat 2 m).take 4 = padNat 4 y := by
    rw [← hl]
    exact List.take_left _ _
  have hd : (padNat 4 y ++ padNat 2 m).drop 4 = padNat 2 m := by
    rw [← hl]
    exact List.drop_left _ _
  simp only [String.mk]
  rw [ht, hd, digitsVal_padNat hy, digitsVal_padNat hm]

/-! ### Parser bounds -/

lemma readNumField_bounds {min2 max2 min1 : Nat} {cs : List Char} {v : Nat} {rest : List Char}
    (h : readNumField min2 max2 min1 cs = some (v, rest)) :
    (min2 ≤ v ∧ v ≤ max2) ∨ (min1 ≤ v ∧ v ≤ 9) := by
  simp only [readNumField] at h
  split at h
  · split at h
    · rename_i hcond
      rw [Option.some.injEq, Prod.mk.injEq] at h
      exact Or.inl (h.1 ▸ hcond)
    · exact Option.noConfusion h
  · split at h
    · split at h
      · rename_i hcond
        rw [Option.some.injEq, Prod.mk.injEq] at h
        exact Or.inr (h.1 ▸ hcond)
      · exact Option.noConfusion h
    · exact Option.noConfusion h

lemma parseTimestamp_bounds {s : String} {t : Timestamp} (h : parseTimestamp s = some t) :
    1 ≤ t.year ∧ t.year ≤ 9999 ∧ 1 ≤ t.month ∧ t.month ≤ 12 := by
  unfold parseTimestamp at h
  by_cases hlen : (readDigits s.data).1.length = 4
  · rw [if_pos hlen] at h
    simp only [Option.bind_eq_some] at h
    obtain ⟨r2, h2, pm, hm, r4, h4, pd, hd, r6, h6, ph, hh, r8, h8, pmi, hmi, r10, h10,
      ps, hs, hfin⟩ := h
    by_cases hcond : ps.2 = [] ∧ 1 ≤ digitsVal (readDigits s.data).1 ∧
        pd.1 ≤ daysInMonth (digitsVal (readDigits s.data).1) pm.1 ∧ ps.1 ≤ 59
    · rw [if_pos hcond, Option.some.injEq] at hfin
      subst hfin
      have hd4 := digitsVal_lt (readDigits s.data).1 (readDigits_digits s.data)
      rw [hlen] at hd4
      have hmb := @readNumField_bounds 1 12 1 r2 pm.1 pm.2 hm
      refine ⟨hcond.2.1, ?_, ?_, ?_⟩
      · show digitsVal (readDigits s.data).1 ≤ 9999
        omega
      · show 1 ≤ pm.1
        rcases hmb with ⟨hb1, hb2⟩ | ⟨hb1, hb2⟩ <;> omega
      · show pm.1 ≤ 12
        rcases hmb with ⟨hb1, hb2⟩ | ⟨hb1, hb2⟩ <;> omega
    · rw [if_neg hcond] at hfin
      exact Option.noConfusion hfin
  · rw [if_neg hlen] at h
    exact Option.noConfusion h

lemma rowMonth_form {r : Row} {k : String} (h : rowMonth r = some k) :
    ∃ y m : Nat, 1 ≤ y ∧ y ≤ 9999 ∧ 1 ≤ m ∧ m ≤ 12 ∧ k = monthKeyYM y m := by
  rw [rowMonth] at h
  rcases Option.map_eq_some'.mp h with ⟨t, ht, hk⟩
  rcases parseTimestamp_bounds ht with ⟨h1, h2, h3, h4⟩
  exact ⟨t.year, t.month, h1, h2, h3, h4, hk.symm⟩

/-! ### Partition of the total sum over month keys -/

lemma inMonth_eq_rowMonth {m : String} {r : Row} :
    inMonth m r = true ↔ rowMonth r = some m := by
  simp [inMonth]

lemma inMonth_unique {r : Row} {m m' : String}
    (h : inMonth m r = true) (h' : inMonth m' r = true) : m = m' := by
  rw [inMonth_eq_rowMonth] at h h'
  rw [h] at h'
  exact Option.some.inj h'

lemma sum_map_zero {α : Type} (l : List α) (f : α → Int) (hf : ∀ x ∈ l, f x = 0) :
    (l.map f).sum = 0 := by
  induction l with
  | nil => rfl
  | cons x xs ih =>
    rw [List.map_cons, List.sum_cons, hf x (List.mem_cons_self x xs),
      ih (fun y hy => hf y (List.mem_cons_of_mem x hy)), add_zero]

lemma sum_if_unique (keys : List String) (m0 : String) (c : String → Bool) (a : Int)
    (hnd : keys.Nodup) (hm : m0 ∈ keys) (hc : ∀ m, c m = true ↔ m = m0) :
    (keys.map fun m => if c m then a else 0).sum = a := by
  induction keys with
  | nil => simp at hm
  | cons k ks ih =>
    rw [List.nodup_cons] at hnd
    by_cases hkm : k = m0
    · subst hkm
      have hck : c k = true := (hc k).mpr rfl
      rw [List.map_cons, List.sum_cons, if_pos hck]
      have hz : (ks.map fun m => if c m then a else 0).sum = 0 := by
        apply sum_map_zero
        intro m hm'
        have hcm : c m = false := by
          cases hcm : c m
          · rfl
          · exact absurd (((hc m).mp hcm) ▸ hm') hnd.1
        rw [hcm]
        rfl
      rw [hz, add_zero]
    · have hck : c k = false := by
        cases hck : c k
        · rfl
        · exact absurd ((hc k).mp hck) hkm
      have hm' : m0 ∈ ks := by
        rcases List.mem_cons.mp hm with he | hmem
        · exact absurd he.symm hkm
        · exact hmem
      rw [List.map_cons, List.sum_cons, if_neg (by simp [hck]), zero_add]
      exact ih hnd.2 hm'

lemma sum_partition (rows : List Row) (keys : List String) (P : Row → Bool)
    (hnd : keys.Nodup)
    (hcov : ∀ r ∈ rows, P r = true → ∃ m ∈ keys, inMonth m r = true) :
    (keys.map fun m => sumAmounts (rows.filter fun r => inMonth m r && P r)).sum
      = sumAmounts (rows.filter P) := by
  induction rows with
  | nil =>
    rw [List.filter_nil, sumAmounts_nil]
    apply sum_map_zero
    intro m _
    rfl
  | cons r rs ih =>
    have hstep : (fun m => sumAmounts ((r :: rs).filter fun r' => inMonth m r' && P r')) =
        fun m => (if inMonth m r && P r then r.amount else 0) +
          sumAmounts (rs.filter fun r' => inMonth m r' && P r') :=
      funext fun m => sumAmounts_filter_cons _ r rs
    rw [hstep, sum_map_add, sumAmounts_filter_cons,
      ih (fun r' hr' hp => hcov r' (List.mem_cons_of_mem r hr') hp)]
    congr 1
    cases hp : P r
    · apply sum_map_zero
      intro m _
      simp [hp]
    · rcases hcov r (List.mem_cons_self r rs) hp with ⟨m0, hm0, hin0⟩
      have hc : ∀ m, (inMonth m r && true) = true ↔ m = m0 := by
        intro m
        rw [Bool.and_true]
        constructor
        · intro hm
          exact inMonth_unique hm hin0
        · intro he
          subst he
          exact hin0
      rw [sum_if_unique keys m0 _ r.amount hnd hm0 hc]
      simp

/-! ### Sorting lemmas -/

lemma sortByKey_perm {α : Type} (d : List (String × α)) : (sortByKey d).Perm d :=
  List.perm_insertionSort keyOrder d

lemma sortByKey_sorted {α : Type} (d : List (String × α)) :
    List.Sorted keyOrder (sortByKey d) :=
  List.sorted_insertionSort keyOrder d

lemma sortByKey_keys_sorted {α : Type} (d : List (String × α)) :
    List.Sorted (· ≤ ·) ((sortByKey d).map Prod.fst) := by
  rw [List.Sorted, List.pairwise_map]
  exact sortByKey_sorted d

lemma sorted_keys_eq {α β : Type} (d : List (String × α)) (e : List (String × β))
    (h : d.map Prod.fst = e.map Prod.fst) :
    (sortByKey d).map Prod.fst = (sortByKey e).map Prod.fst := by
  have hp : ((sortByKey d).map Prod.fst).Perm ((sortByKey e).map Prod.fst) := by
    have h1 := (sortByKey_perm d).map Prod.fst
    have h2 := (sortByKey_perm e).map Prod.fst
    rw [h] at h1
    exact h1.trans h2.symm
  exact List.eq_of_perm_of_sorted hp (sortByKey_keys_sorted d) (sortByKey_keys_sorted e)

lemma aggregate_keys_form {rows : List Row} {st : AggState}
    (h : aggregate rows = some st) :
    ∀ k ∈ monthKeys st, ∃ y m : Nat, 1 ≤ y ∧ y ≤ 9999 ∧ 1 ≤ m ∧ m ≤ 12 ∧
      k = monthKeyYM y m := by
  intro k hk
  rw [aggregate_monthKeys h] at hk
  rcases newMonths_sub hk with ⟨r, _, hrm⟩
  exact rowMonth_form hrm

lemma sorted_rank_of_sorted_le {ks : List String}
    (hform : ∀ k ∈ ks, ∃ y m : Nat, 1 ≤ y ∧ y ≤ 9999 ∧ 1 ≤ m ∧ m ≤ 12 ∧ k = monthKeyYM y m)
    (hs : List.Sorted (· ≤ ·) ks) :
    List.Sorted (fun a b => keyRank a ≤ keyRank b) ks := by
  refine List.Pairwise.imp_of_mem ?_ hs
  intro a b ha hb hab
  rcases hform a ha with ⟨y1, m1, hy11, hy12, hm11, hm12, hae⟩
  rcases hform b hb with ⟨y2, m2, hy21, hy22, hm21, hm22, hbe⟩
  subst hae
  subst hbe
  have hy1 : y1 < 10 ^ 4 := by norm_num; omega
  have hy2 : y2 < 10 ^ 4 := by norm_num; omega
  have hm1 : m1 < 10 ^ 2 := by norm_num; omega
  have hm2 : m2 < 10 ^ 2 := by norm_num; omega
  rw [keyRank_monthKeyYM hy1 hm1, keyRank_monthKeyYM hy2 hm2]
  exact (monthKeyYM_le_iff hy1 hm1 hy2 hm2).mp hab

lemma aggregate_all_parse {rows : List Row} {st : AggState}
    (h : aggregate rows = some st) : ∀ r ∈ rows, (rowMonth r).isSome := by
  intro r hr
  cases hm : rowMonth r
  · rw [aggregate, aggLoop_none_of_bad hr hm initState] at h
    exact Option.noConfusion h
  · rfl

lemma aggregate_keys_nodup {rows : List Row} {st : AggState}
    (h : aggregate rows = some st) : (monthKeys st).Nodup := by
  have hinv := aggregate_inv h
  rw [← hinv.1]
  exact hinv.2

lemma sumAmounts_perm {l l' : List Row} (hp : l.Perm l') : sumAmounts l = sumAmounts l' :=
  (hp.map Row.amount).sum_eq

/-! ### Claim theorems -/

/-- C1: on the concrete input of the specification scenario, the
aggregation produces exactly one month bucket, keyed 202401, with income
total 5000, clean-expense total 1200, outlier-expense total 50000, and the
per-month category breakdown of its member rows maps food to 1200 and
nothing else. -/
theorem C1_scenario_single_bucket :
    aggregate c1rows = some c1state ∧
    monthKeys c1state = ["202401"] ∧
    bucketTotals c1state "202401" = ⟨5000, 1200, 50000⟩ ∧
    expense_by_category (bucketRows c1state "202401") = [("food", 1200)] := by
  refine ⟨by decide, by decide, by decide, by decide⟩

/-- C2: for every record set accepted by the aggregation and every month
key, the clean-expense total plus the outlier-expense total equals the sum
of amount over all expense records assigned to that month. -/
theorem C2_clean_plus_outlier_eq_expense_sum (rows : List Row) (st : AggState) (m : String)
    (h : aggregate rows = some st) :
    (bucketTotals st m).expense_clean + (bucketTotals st m).expense_outlier =
      expenseOf rows m := by
  rw [aggregate_bucketTotals h m]
  show cleanOf rows m + outlierOf rows m = expenseOf rows m
  rw [cleanOf, outlierOf, expenseOf]
  have h1 : (fun r => inMonth m r && (isExpense r && !(outlierVal r == 1))) =
      (fun r => (inMonth m r && isExpense r) && !(outlierVal r == 1)) :=
    funext fun r => by rw [Bool.and_assoc]
  have h2 : (fun r => inMonth m r && (isExpense r && (outlierVal r == 1))) =
      (fun r => (inMonth m r && isExpense r) && (outlierVal r == 1)) :=
    funext fun r => by rw [Bool.and_assoc]
  rw [h1, h2, add_comm]
  exact sumAmounts_filter_split rows (fun r => inMonth m r && isExpense r)
    (fun r => outlierVal r == 1)

/-- Witness for C2 at the scenario input: 1200 plus 50000 is the expense
sum of month 202401. -/
theorem C2_witness :
    (bucketTotals c1state "202401").expense_clean +
      (bucketTotals c1state "202401").expense_outlier = expenseOf c1rows "202401" :=
  C2_clean_plus_outlier_eq_expense_sum c1rows c1state "202401" (by decide)

/-- C9: every record whose type is not the string expense, including types
other than income, has its amount added to the income total of its month;
the classification branches only on whether the type equals expense. -/
theorem C9_nonexpense_counts_as_income (rows : List Row) (st : AggState) (m : String)
    (h : aggregate rows = some st) :
    (bucketTotals st m).income =
      sumAmounts (rows.filter fun r => inMonth m r && !(r.rtype == "expense")) := by
  rw [aggregate_bucketTotals h m]
  rfl

/-- Witness for C9: a row of type transfer is counted in the income total
of its month. -/
theorem C9_witness :
    (bucketTotals c9state "202403").income =
      sumAmounts ([c9row].filter fun r => inMonth "202403" r && !(r.rtype == "expense")) :=
  C9_nonexpense_counts_as_income [c9row] c9state "202403" (by decide)

/-- C10: in main() of the monthly spreadsheet variant, after the workbook
is generated, a delivery response with a client or server error status
makes raise_for_status raise before the cleanup step, so the rendered file
stays on disk; the file is removed exactly on the delivery-success path. -/
theorem C10_delivery_failure_keeps_file (data : List Row) (st : AggState) (status : Nat)
    (h : aggregate data = some st) :
    ((400 ≤ status ∧ status < 600) →
      (mainRunLatest data status).raisedError = true ∧
      (mainRunLatest data status).fileRemaining = true) ∧
    (¬(400 ≤ status ∧ status < 600) →
      (mainRunLatest data status).raisedError = false ∧
      (mainRunLatest data status).fileRemaining = false ∧
      (mainRunLatest data status).deliveryAttempted = true) := by
  unfold mainRunLatest
  rw [h]
  constructor
  · intro hf
    have hc : httpFailure status = true := by
      rw [httpFailure]
      simp only [Bool.and_eq_true, decide_eq_true_eq]
      omega
    simp [hc]
  · intro hnf
    have hc : httpFailure status = false := by
      rw [httpFailure]
      simp only [Bool.and_eq_false_iff, decide_eq_false_iff_not]
      omega
    simp [hc]

/-- Witness for C10: status 404 leaves the file on disk with an error
raised; status 200 deletes it after a delivery attempt. -/
theorem C10_witness :
    ((mainRunLatest [] 404).raisedError = true ∧
      (mainRunLatest [] 404).fileRemaining = true) ∧
    ((mainRunLatest [] 200).raisedError = false ∧
      (mainRunLatest [] 200).fileRemaining = false ∧
      (mainRunLatest [] 200).deliveryAttempted = true) :=
  ⟨(C10_delivery_failure_keeps_file [] initState 404 rfl).1 (by omega),
   (C10_delivery_failure_keeps_file [] initState 200 rfl).2 (by omega)⟩

/-- C6 counterexample: the created_at value 2024-1-05 10:00:00 does not
match the literal YYYY-MM-DD HH:MM:SS shape, yet the aggregation does not
raise: strptime accepts the unpadded month field and the record lands in
bucket 202401. -/
theorem C6_counterexample :
    matchesDeclaredFormat "2024-1-05 10:00:00" = false ∧
    aggregate [c6row] = some ⟨[("202401", [c6row])], [("202401", ⟨0, 7, 0⟩)]⟩ := by
  refine ⟨by decide, by decide⟩

/-- C6 amended: for every input record whose created_at value is rejected
by the strptime call (which accepts the YYYY-MM-DD HH:MM:SS shape and also
tolerates unpadded numeric fields and whitespace runs), the aggregation
fails with the parse error and produces no output at all: the record is
neither dropped nor partially bucketed. -/
theorem C6_unparseable_created_at_aborts (rows : List Row) (r : Row) (hr : r ∈ rows)
    (hbad : parseTimestamp r.created_at = none) :
    aggregate rows = none := by
  apply aggLoop_none_of_bad hr _ initState
  rw [rowMonth, hbad]
  rfl

/-- Witness for C6: a record dated in month 13 makes the whole aggregation
fail. -/
theorem C6_witness : aggregate [c6badRow] = none :=
  C6_unparseable_created_at_aborts [c6badRow] c6badRow (by decide) (by decide)

/-- C7 counterexample: the monthly spreadsheet variant, run on an empty
query result, prints no diagnostic, still writes the workbook and still
attempts the delivery call. -/
theorem C7_counterexample :
    (mainRunLatest [] 200).printedNoData = false ∧
    (mainRunLatest [] 200).artifactWritten = true ∧
    (mainRunLatest [] 200).deliveryAttempted = true := by
  refine ⟨rfl, rfl, rfl⟩

/-- C7 amended: only the 7-day pie-chart variant and the month-comparison
stacked-chart variant take the diagnostic-and-clean-exit path on zero
rows, producing no artifact and attempting no delivery; the monthly
spreadsheet variant and the weekly line-chart variant render and send an
artifact even when the query yields zero rows. -/
theorem C7_no_data_paths :
    runPiechart [] = ⟨true, false, false, false, false⟩ ∧
    runStackChart [] [] = ⟨true, false, false, false, false⟩ ∧
    (∀ status : Nat, (mainRunLatest [] status).printedNoData = false ∧
      (mainRunLatest [] status).artifactWritten = true ∧
      (mainRunLatest [] status).deliveryAttempted = true) ∧
    (∀ data : List (String × Int), (runWeekly data).artifactWritten = true ∧
      (runWeekly data).deliveryAttempted = true) := by
  refine ⟨rfl, rfl, fun status => ?_, fun data => ⟨rfl, rfl⟩⟩
  by_cases hs : httpFailure status <;>
    simp [mainRunLatest, aggregate, aggLoop, hs]

/-- C3 counterexample: an expense whose outlier flag is 2 is counted in
the clean-expense total (the loop only tests the flag against 1) but is
excluded from the category breakdown (which requires the flag to be None
or 0), so the subtotals sum to 0 while the clean total is 100. -/
theorem C3_counterexample :
    aggregate [c3row] = some c3state ∧
    ((expense_by_category (bucketRows c3state "202401")).map Prod.snd).sum = 0 ∧
    (bucketTotals c3state "202401").expense_clean = 100 := by
  refine ⟨by decide, by decide, by decide⟩

/-- C3 amended: when the outlier flag of every expense record is 0, 1 or
absent, the per-month category subtotals sum to exactly the clean-expense
total of the month, and each category subtotal equals the sum of the clean
expenses of that month and category. -/
theorem C3_subtotals_sum_to_clean (rows : List Row) (st : AggState) (m : String)
    (h : aggregate rows = some st)
    (hflag : ∀ r ∈ rows, isExpense r = true →
      r.is_outlier = none ∨ r.is_outlier = some 0 ∨ r.is_outlier = some 1) :
    ((expense_by_category (bucketRows st m)).map Prod.snd).sum =
      (bucketTotals st m).expense_clean ∧
    ∀ c, catValue (bucketRows st m) c =
      sumAmounts (rows.filter fun r =>
        (inMonth m r && (isExpense r && !(outlierVal r == 1))) && r.category == c) := by
  rw [aggregate_bucketRows h m, aggregate_bucketTotals h m]
  constructor
  · rw [expense_by_category_sum, List.filter_filter]
    show sumAmounts _ = cleanOf rows m
    rw [cleanOf]
    apply congrArg
    apply List.filter_congr
    intro r hr
    cases hex : isExpense r
    · have hex' : (r.rtype == "expense") = false := hex
      simp [catFilter, hex', hex]
    · have hex' : (r.rtype == "expense") = true := hex
      rcases hflag r hr hex with h0 | h0 | h0 <;>
        simp [catFilter, outlierVal, hex', hex, h0]
  · intro c
    rw [catValue_eq_catSum, catSum, List.filter_filter]
    apply congrArg
    apply List.filter_congr
    intro r hr
    cases hex : isExpense r
    · have hex' : (r.rtype == "expense") = false := hex
      simp [catPred, catFilter, hex', hex]
    · have hex' : (r.rtype == "expense") = true := hex
      rcases hflag r hr hex with h0 | h0 | h0 <;>
        simp [catPred, catFilter, outlierVal, hex', hex, h0, Bool.and_assoc, Bool.and_comm]

/-- Witness for C3 amended at the scenario input: the subtotal for food,
1200, is the whole clean total of month 202401. -/
theorem C3_witness :
    ((expense_by_category (bucketRows c1state "202401")).map Prod.snd).sum =
      (bucketTotals c1state "202401").expense_clean :=
  (C3_subtotals_sum_to_clean c1rows c1state "202401" (by decide) (by decide)).1

/-- C4: for every non-empty record set whose types are the declared
enumeration income or expense, the per-month income totals summed over all
buckets equal the total amount of the income records. -/
theorem C4_income_totals_partition (rows : List Row) (st : AggState)
    (hne : rows ≠ []) (h : aggregate rows = some st)
    (hty : ∀ r ∈ rows, r.rtype = "income" ∨ r.rtype = "expense") :
    (st.monthly_income_expense.map fun p => p.2.income).sum =
      sumAmounts (rows.filter fun r => r.rtype == "income") := by
  have hnd : (monthKeys st).Nodup := aggregate_keys_nodup h
  have hent : ∀ p ∈ st.monthly_income_expense, p.2.income = incomeOf rows p.1 := by
    intro p hp
    have hfind : dictFind st.monthly_income_expense p.1 = some p.2 :=
      dictFind_of_mem_nodup _ p.1 p.2 hnd hp
    have hbt : bucketTotals st p.1 = p.2 := by
      rw [bucketTotals, hfind]
      rfl
    rw [← hbt, aggregate_bucketTotals h]
    rfl
  rw [show (st.monthly_income_expense.map fun p => p.2.income) =
    st.monthly_income_expense.map (fun p => incomeOf rows p.1) from
      List.map_congr_left hent]
  have hmm2 : (st.monthly_income_expense.map fun p => incomeOf rows p.1) =
      (monthKeys st).map fun m => incomeOf rows m := by
    rw [monthKeys, List.map_map]
    rfl
  rw [hmm2]
  have hcov : ∀ r ∈ rows, (!isExpense r) = true →
      ∃ m ∈ monthKeys st, inMonth m r = true := by
    intro r hr _
    rcases Option.isSome_iff_exists.mp (aggregate_all_parse h r hr) with ⟨mr, hmr⟩
    refine ⟨mr, ?_, inMonth_eq_rowMonth.mpr hmr⟩
    rw [aggregate_mem_monthKeys h]
    exact List.any_eq_true.mpr ⟨r, hr, inMonth_eq_rowMonth.mpr hmr⟩
  have hpart := sum_partition rows (monthKeys st) (fun r => !isExpense r) hnd hcov
  rw [show ((monthKeys st).map fun m => incomeOf rows m) =
    (monthKeys st).map (fun m => sumAmounts (rows.filter fun r =>
      inMonth m r && !isExpense r)) from rfl]
  rw [hpart]
  apply congrArg
  apply List.filter_congr
  intro r hr
  rcases hty r hr with he | he <;> simp [isExpense, he]

/-- Witness for C4 at the scenario input: the bucket income totals sum to
5000, the amount of the single income record. -/
theorem C4_witness :
    (c1state.monthly_income_expense.map fun p => p.2.income).sum =
      sumAmounts (c1rows.filter fun r => r.rtype == "income") :=
  C4_income_totals_partition c1rows c1state (by decide) (by decide) (by decide)

/-- C5: aggregating a permutation of the input yields the same set of
month keys and, for every month, the same income, clean-expense and
outlier-expense totals and the same per-category subtotal values. -/
theorem C5_order_independence (rows rows' : List Row) (st st' : AggState)
    (hp : rows.Perm rows') (h : aggregate rows = some st)
    (h' : aggregate rows' = some st') :
    (∀ m, m ∈ monthKeys st ↔ m ∈ monthKeys st') ∧
    (∀ m, bucketTotals st m = bucketTotals st' m) ∧
    (∀ m c, catValue (bucketRows st m) c = catValue (bucketRows st' m) c) := by
  refine ⟨?_, ?_, ?_⟩
  · intro m
    rw [aggregate_mem_monthKeys h, aggregate_mem_monthKeys h']
    constructor
    · intro hx
      rcases List.any_eq_true.mp hx with ⟨r, hr, hrm⟩
      exact List.any_eq_true.mpr ⟨r, hp.mem_iff.mp hr, hrm⟩
    · intro hx
      rcases List.any_eq_true.mp hx with ⟨r, hr, hrm⟩
      exact List.any_eq_true.mpr ⟨r, hp.mem_iff.mpr hr, hrm⟩
  · intro m
    rw [aggregate_bucketTotals h m, aggregate_bucketTotals h' m,
      specTotals, specTotals, incomeOf, incomeOf, cleanOf, cleanOf,
      outlierOf, outlierOf, Totals.mk.injEq]
    refine ⟨?_, ?_, ?_⟩ <;> exact sumAmounts_perm (hp.filter _)
  · intro m c
    rw [aggregate_bucketRows h m, aggregate_bucketRows h' m,
      catValue_eq_catSum, catValue_eq_catSum, catSum, catSum]
    exact sumAmounts_perm ((hp.filter (inMonth m)).filter (catPred c))

/-- Witness for C5: the two-month input in both orders gives the same keys,
the same totals for 202401, and the same subtotal for category y. -/
theorem C5_witness :
    ("202401" ∈ monthKeys cFebJanState ↔ "202401" ∈ monthKeys cJanFebState) ∧
    bucketTotals cFebJanState "202401" = bucketTotals cJanFebState "202401" ∧
    catValue (bucketRows cFebJanState "202401") "y" =
      catValue (bucketRows cJanFebState "202401") "y" :=
  ⟨(C5_order_independence [cFebRow, cJanRow] [cJanRow, cFebRow] cFebJanState cJanFebState
      (by decide) (by decide) (by decide)).1 "202401",
   (C5_order_independence [cFebRow, cJanRow] [cJanRow, cFebRow] cFebJanState cJanFebState
      (by decide) (by decide) (by decide)).2.1 "202401",
   (C5_order_independence [cFebRow, cJanRow] [cJanRow, cFebRow] cFebJanState cJanFebState
      (by decide) (by decide) (by decide)).2.2 "202401" "y"⟩

/-- C8: the summary sheet lists one row per month in ascending
lexicographic order of the YYYYMM key, that order coincides with the
chronological order of the keys, the detail sheets are created in the
same key order, and the rendered key sequence does not depend on the
order of the input rows. -/
theorem C8_summary_sorted (rows rows' : List Row) (st st' : AggState)
    (h : aggregate rows = some st) (hp : rows.Perm rows')
    (h' : aggregate rows' = some st') :
    List.Sorted (· ≤ ·) ((summaryRows st).map Prod.fst) ∧
    List.Sorted (fun a b => keyRank a ≤ keyRank b) ((summaryRows st).map Prod.fst) ∧
    (detailSheets st).map Prod.fst = (summaryRows st).map Prod.fst ∧
    (summaryRows st').map Prod.fst = (summaryRows st).map Prod.fst := by
  refine ⟨sortByKey_keys_sorted _, ?_, ?_, ?_⟩
  · apply sorted_rank_of_sorted_le ?_ (sortByKey_keys_sorted _)
    intro k hk
    apply aggregate_keys_form h
    exact ((sortByKey_perm st.monthly_income_expense).map Prod.fst).mem_iff.mp hk
  · exact sorted_keys_eq st.month_data st.monthly_income_expense (aggregate_inv h).1
  · apply List.eq_of_perm_of_sorted ?_ (sortByKey_keys_sorted _) (sortByKey_keys_sorted _)
    have h1 := (sortByKey_perm st'.monthly_income_expense).map Prod.fst
    have h2 := (sortByKey_perm st.monthly_income_expense).map Prod.fst
    have hkeys : (monthKeys st').Perm (monthKeys st) := by
      rw [List.perm_ext_iff_of_nodup (aggregate_keys_nodup h') (aggregate_keys_nodup h)]
      intro a
      rw [aggregate_mem_monthKeys h', aggregate_mem_monthKeys h]
      constructor
      · intro hx
        rcases List.any_eq_true.mp hx with ⟨r, hr, hrm⟩
        exact List.any_eq_true.mpr ⟨r, hp.mem_iff.mpr hr, hrm⟩
      · intro hx
        rcases List.any_eq_true.mp hx with ⟨r, hr, hrm⟩
        exact List.any_eq_true.mpr ⟨r, hp.mem_iff.mp hr, hrm⟩
    exact h1.trans (hkeys.trans h2.symm)

/-- Witness for C8: with the February row first in the input, the summary
still lists 202401 before 202402, the detail sheets follow the same order,
and the reversed input renders the same key sequence. -/
theorem C8_witness :
    List.Sorted (· ≤ ·) ((summaryRows cFebJanState).map Prod.fst) ∧
    List.Sorted (fun a b => keyRank a ≤ keyRank b)
      ((summaryRows cFebJanState).map Prod.fst) ∧
    (detailSheets cFebJanState).map Prod.fst = (summaryRows cFebJanState).map Prod.fst ∧
    (summaryRows cJanFebState).map Prod.fst = (summaryRows cFebJanState).map Prod.fst :=
  C8_summary_sorted [cFebRow, cJanRow] [cJanRow, cFebRow] cFebJanState cJanFebState
    (by decide) (by decide) (by decide)

end FinanceReports
